import Mathlib

/-!
Shallow embedding of the nightly PRA (polarization-ratio anomaly) detection
engine of `pra_nighttime.py`, together with theorems checking the
natural-language specification against it.

Modelling conventions:
* machine floats are modelled by `ℚ`; an array slot that may hold a
  non-finite value (NaN) is modelled by `Option ℚ` (`none` = non-finite);
* numpy arrays are Lean lists, elementwise numpy operations are `map`,
  `zipWith` or index maps over `List.range`;
* timestamps are rationals (a fixed linear time scale; seconds for the raw
  series, minutes for the disturbance index where noted);
* the filesystem touched by the orchestrator is an explicit state value.
-/

namespace PRA

/-- A float stored in one of the pipeline's arrays: `some q` is a finite
value, `none` a non-finite one. -/
abbrev FVal := Option ℚ

/-! ### Night gate (from `compute_pseries`, local-hour window test)

Source:
```
isNight = False
if opts['ltStart'] < opts['ltEnd']:
    isNight = opts['ltStart'] <= hr < opts['ltEnd']
else:
    isNight = hr >= opts['ltStart'] or hr < opts['ltEnd']
```
-/

/-- Night-gate predicate on the local hour of a window midpoint, with
wraparound across midnight when `ltStart ≥ ltEnd`. -/
def isNightHour (ltStart ltEnd hr : ℕ) : Bool :=
  if ltStart < ltEnd then decide (ltStart ≤ hr) && decide (hr < ltEnd)
  else decide (ltStart ≤ hr) || decide (hr < ltEnd)

/-! ### Guard-band dilation (from `apply_guard`)

Source:
```
if guardMin <= 0:
    return mask
out = mask.copy()
idx = np.where(mask)[0]
for k in idx:
    a = max(0, k - guardMin)
    b = min(len(mask), k + guardMin + 1)
    out[a:b] = True
return out
```
-/

/-- Slice assignment `out[a:b] = True` on a boolean vector. -/
def setTrueRange (out : List Bool) (a b : ℕ) : List Bool :=
  (List.range out.length).map
    (fun j => out.getD j false || (decide (a ≤ j) && decide (j < b)))

/-- One iteration of the dilation loop: mark all minutes within the guard
radius of the disturbed minute `k` (clipped to the mask bounds). -/
def guardStep (g : ℤ) (len : ℕ) (out : List Bool) (k : ℕ) : List Bool :=
  setTrueRange out ((k : ℤ) - g).toNat (min len ((k : ℤ) + g + 1).toNat)

/-- Dilate each disturbed minute of `mask` by `± g` minutes; the identity
when `g ≤ 0`. -/
def applyGuard (mask : List Bool) (g : ℤ) : List Bool :=
  if g ≤ 0 then mask
  else
    ((List.range mask.length).filter (fun k => mask.getD k false)).foldl
      (guardStep g mask.length) mask

/-! ### ε-guarded polarization ratio (from `compute_pseries`)

Source:
```
mean_S_G = np.mean(S_G[S_G > 0]) if np.any(S_G > 0) else 1.0
min_S_G = max(1e-10, mean_S_G * 1e-6)
S_G_safe = np.where(S_G > min_S_G, S_G, min_S_G)
P = S_Z / S_G_safe
```
-/

/-- Mean of the strictly positive horizontal band powers of the night,
defaulting to `1.0` when no value is positive. -/
def meanPosSG (SG : List ℚ) : ℚ :=
  let pos := SG.filter (fun g => decide (0 < g))
  if pos.length = 0 then 1 else pos.sum / pos.length

/-- The clamping value `min_S_G` used to guard the ratio denominator. -/
def epsGuard (SG : List ℚ) : ℚ :=
  max (1 / 10 ^ 10) (meanPosSG SG * (1 / 10 ^ 6))

/-- Elementwise `np.where(S_G > min_S_G, S_G, min_S_G)`. -/
def safeSG (SG : List ℚ) : List ℚ :=
  SG.map (fun g => if epsGuard SG < g then g else epsGuard SG)

/-- The per-window polarization ratio series `P = S_Z / S_G_safe`. -/
def computeP (SZ SG : List ℚ) : List ℚ :=
  List.zipWith (fun z g => z / g) SZ (safeSG SG)

/-! ### Quiet / disturbed classification (from `compute_quiet_flags`)

Source (timestamps modelled in minutes):
```
if GI.empty: all windows quiet, fraction 0
for m in range(len(T)):
    mask = (GI.index >= T[m] - 30min) & (GI.index <= T[m] + 30min)
    GI_subset = GI[mask]
    if len(GI_subset) > 0:
        frac = (GI_subset['SYMH'] < symhThr).mean()
        isQuiet[m] = frac <= (tolTight if tightFlag else tol)
    else:
        isQuiet[m] = True; fracDisturbed[m] = 0.0
```
-/

/-- The disturbance-index samples within ±30 minutes of midpoint `t`
(bounds inclusive, as in the source's `>=` / `<=` mask). -/
def windowSubset (GI : List (ℚ × ℚ)) (t : ℚ) : List (ℚ × ℚ) :=
  GI.filter (fun s => decide (t - 30 ≤ s.1) && decide (s.1 ≤ t + 30))

/-- Fraction of the samples in `sub` whose index value is strictly below
the disturbance threshold `thr`. -/
def fracBelow (sub : List (ℚ × ℚ)) (thr : ℚ) : ℚ :=
  ((sub.filter (fun s => decide (s.2 < thr))).length : ℚ) / sub.length

/-- Quiet flag and disturbed fraction for one window midpoint. -/
def quietFlagAt (GI : List (ℚ × ℚ)) (tol : ℚ) (tight : Bool) (tolTight thr t : ℚ) :
    Bool × ℚ :=
  let sub := windowSubset GI t
  if sub.length = 0 then (true, 0)
  else (decide (fracBelow sub thr ≤ if tight then tolTight else tol), fracBelow sub thr)

/-- Per-window quiet flags and disturbed fractions for a night; an entirely
empty disturbance series marks every window quiet. -/
def computeQuietFlags (T : List ℚ) (GI : List (ℚ × ℚ)) (tol : ℚ) (tight : Bool)
    (tolTight thr : ℚ) : List (Bool × ℚ) :=
  if GI.isEmpty then T.map (fun _ => (true, 0))
  else T.map (fun t => quietFlagAt GI tol tight tolTight thr t)

/-! ### Amplitude guard and anomaly decision (from `nz_guard` and the
decision section of `analyze_row`)

Source:
```
def nz_guard(nZ, station, stMap, useZ, zMin, fixedMin):
    if not useZ: return nZ > fixedMin
    if not stMap or key not in stMap: return nZ > fixedMin
    mu, sd = stMap[key]
    if sd <= 0: sd = np.finfo(float).eps
    return (nZ - mu) / sd > zMin

isAnomQuiet = (P > thrEff) & isQuiet & nzOK
is_anomalous = persistence_rule(...) if opts['usePersist'] else np.any(isAnomQuiet)
nAnomHours = np.sum(isAnomQuiet)
idx = np.where(isAnomQuiet)[0]
anom_table rows: TimeOfAnomaly, DayOfAnomaly, AnomalyValue, nZ, ThresholdValue
```
-/

/-- Machine epsilon substituted for a non-positive stored stdev
(`np.finfo(float).eps = 2⁻⁵²`). -/
def machineEps : ℚ := 1 / 2 ^ 52

/-- Per-window amplitude guard on the raw vertical band power; `stat` is
the station's `(mean, stdev)` looked up in `stMap` (`none` when the z-score
mode is off, the map is empty, or the station is absent). -/
def nzGuardPass (useZ : Bool) (stat : Option (ℚ × ℚ)) (zMin fixedMin nZv : ℚ) : Bool :=
  if !useZ then decide (fixedMin < nZv)
  else
    match stat with
    | none => decide (fixedMin < nZv)
    | some (mu, sd) =>
      let sd' := if sd ≤ 0 then machineEps else sd
      decide (zMin < (nZv - mu) / sd')

/-- Elementwise combination of three parallel arrays (numpy broadcasting
over windows). -/
def map3 {α β γ δ : Type} (f : α → β → γ → δ) : List α → List β → List γ → List δ
  | a :: as, b :: bs, c :: cs => f a b c :: map3 f as bs cs
  | _, _, _ => []

/-- Per-window anomalous-quiet flags: `(P > thr) & isQuiet & nzOK`. -/
def isAnomQuietList (P nZl : List ℚ) (quiet : List Bool) (thr : ℚ) (useZ : Bool)
    (stat : Option (ℚ × ℚ)) (zMin fixedMin : ℚ) : List Bool :=
  map3 (fun p q z => decide (thr < p) && q && nzGuardPass useZ stat zMin fixedMin z)
    P quiet nZl

/-- One row of the anomaly table. -/
structure AnomRow where
  time : ℚ
  dayOffset : ℚ
  value : ℚ
  power : ℚ
  thrVal : ℚ
deriving DecidableEq

/-- Indices of the anomalous-quiet windows (`np.where(isAnomQuiet)[0]`). -/
def anomIndices (A : List Bool) : List ℕ :=
  (List.range A.length).filter (fun i => A.getD i false)

/-- The anomaly table: one row per anomalous-quiet window, carrying its
time, day offset from the analysis date, ratio value, raw vertical power
and the night's threshold. -/
def anomTable (T P nZl : List ℚ) (A : List Bool) (eqDate thr : ℚ) : List AnomRow :=
  (anomIndices A).map (fun i =>
    ⟨T.getD i 0, (T.getD i 0 - eqDate) / 86400, P.getD i 0, nZl.getD i 0, thr⟩)

/-- Optional persistence rule (`persistence_rule`): at least `K`
anomalous-quiet windows within the trailing `Dd` days ending at `eqDate`. -/
def persistenceRule (T : List ℚ) (A : List Bool) (eqDate : ℚ) (K : ℕ) (Dd : ℚ) : Bool :=
  if !(A.any id) then false
  else
    decide (K ≤ ((T.zip A).filter
      (fun p => p.2 && decide (eqDate - Dd * 86400 ≤ p.1) && decide (p.1 ≤ eqDate))).length)

/-- Night-level anomaly flag: the persistence rule when enabled, otherwise
`np.any(isAnomQuiet)`. -/
def nightDecision (usePersist : Bool) (T : List ℚ) (A : List Bool) (eqDate : ℚ)
    (K : ℕ) (Dd : ℚ) : Bool :=
  if usePersist then persistenceRule T A eqDate K Dd else A.any id

/-- The decision section of `analyze_row`: night-level flag, anomalous
window count and anomaly table. -/
def analyzeRowDecision (T P nZl : List ℚ) (quiet : List Bool) (thr : ℚ) (useZ : Bool)
    (stat : Option (ℚ × ℚ)) (zMin fixedMin : ℚ) (usePersist : Bool) (K : ℕ)
    (Dd eqDate : ℚ) : Bool × ℕ × List AnomRow :=
  let A := isAnomQuietList P nZl quiet thr useZ stat zMin fixedMin
  (nightDecision usePersist T A eqDate K Dd, A.count true, anomTable T P nZl A eqDate thr)

/-! ### Orchestrator filesystem state (from `process_station` and
`cleanup_old_data_files`)

The persisted state is modelled as a list of dated artifacts (the nightly
JSON record, the CSV export and the figure) plus the set of station data
folders.  Dates are day numbers on a linear calendar; an artifact whose
filename does not parse as a date is modelled with `date = none` (the
source skips such files on `ValueError`).
-/

/-- Kind of a persisted per-station artifact. -/
inductive ArtifactKind
  | json
  | csv
  | fig
deriving DecidableEq

/-- One persisted file, identified by station, embedded date and kind. -/
structure Artifact where
  station : String
  date : Option ℤ
  kind : ArtifactKind
deriving DecidableEq

/-- Retention pruning (`cleanup_old_data_files`): delete this station's
artifacts whose embedded date is strictly before `current - daysToKeep`;
files of other stations and files without a parsable date are kept.

Source:
```
cutoff_date = current_date - timedelta(days=days_to_keep)
for each JSON/CSV/figure file of this station:
    file_date = parse date from filename  # skip on ValueError
    if file_date < cutoff_date: file.unlink()
```
-/
def cleanupOldDataFiles (station : String) (current daysToKeep : ℤ)
    (fs : List Artifact) : List Artifact :=
  fs.filter (fun f =>
    !(decide (f.station = station) &&
      (match f.date with
       | some d => decide (d < current - daysToKeep)
       | none => false)))

/-- The orchestrator's visible persisted state: station folders and files. -/
structure OrchState where
  folders : List String
  files : List Artifact
deriving DecidableEq

/-- `out_folder.mkdir(parents=True, exist_ok=True)`. -/
def mkdirP (st : OrchState) (folder : String) : OrchState :=
  if folder ∈ st.folders then st else { st with folders := folder :: st.folders }

/-- Does a persisted nightly JSON record exist for this station and date? -/
def recordExists (st : OrchState) (station : String) (date : ℤ) : Bool :=
  st.files.any (fun f =>
    decide (f.station = station) && decide (f.date = some date) &&
      decide (f.kind = ArtifactKind.json))

/-- The early-exit gate of `process_station`: ensure the station folder
exists, then, if the nightly JSON record for the target night is already
present and the force-rerun flag is unset, return success at once without
touching anything else; otherwise run the rest of the pipeline
(`runRest`, left abstract).  The result is `some true` for success,
`some false` for failure and `none` for a skipped night.

Source:
```
out_folder.mkdir(parents=True, exist_ok=True)
json_file = out_folder / f'PRA_Night_{station}_{today}.json'
force_rerun = os.getenv('FORCE_RERUN', ...) in ('1', 'true', 'yes')
if json_file.exists() and not force_rerun:
    return True
```
-/
def processStationGate (runRest : OrchState → Option Bool × OrchState)
    (station : String) (today : ℤ) (forceRerun : Bool) (st : OrchState) :
    Option Bool × OrchState :=
  let st1 := mkdirP st station
  if recordExists st1 station today && !forceRerun then (some true, st1)
  else runRest st1

/-! ### Historical quiet-value pool (from `load_historical_quiet_p_values`)

Source:
```
for i in range(1, days_back + 1):
    past_date = current_date - timedelta(days=i)
    data = json.load(open(PRA_Night_{station}_{past_date}.json))  # skip if absent/unreadable
    if 'P' in data:
        if 'isQuiet' in data: quiet_mask = isQuiet
        elif 'isAnomalous' in data: quiet_mask = ~isAnomalous
        else: continue
        Pq_day = P[quiet_mask & np.isfinite(P)]
        if len(Pq_day) > 0:
            historical_Pq.extend(Pq_day); days_loaded += 1
```
-/

/-- A persisted nightly record as read back from JSON: the `P` array and
the optional `isQuiet` / `isAnomalous` arrays (`none` = key absent). -/
structure NightRec where
  P : Option (List FVal)
  isQuiet : Option (List Bool)
  isAnomalous : Option (List Bool)

/-- The per-window quiet mask used for selection: `isQuiet` when present,
else the negation of `isAnomalous`, else nothing (the day contributes
no values). -/
def effQuietMask (r : NightRec) : Option (List Bool) :=
  match r.isQuiet with
  | some q => some q
  | none =>
    match r.isAnomalous with
    | some a => some (a.map (fun b => !b))
    | none => none

/-- The finite quiet `P` values contributed by one record
(`P_values[quiet_mask & np.isfinite(P_values)]`).  A record whose arrays
have mismatched lengths raises inside the `try` block and contributes
nothing. -/
def dayQuietVals (r : NightRec) : List ℚ :=
  match r.P, effQuietMask r with
  | some Pv, some m =>
    if Pv.length = m.length then
      (Pv.zip m).filterMap (fun pm =>
        match pm.1, pm.2 with
        | some v, true => some v
        | _, _ => none)
    else []
  | _, _ => []

/-- The values contributed by the record persisted for day `d`; a missing
night contributes nothing (skipped, no error). -/
def contribAt (store : ℤ → Option NightRec) (d : ℤ) : List ℚ :=
  match store d with
  | some r => dayQuietVals r
  | none => []

/-- Scan the `daysBack` prior nights, most recent first, concatenate each
night's finite quiet `P` values, and count the nights that actually
contributed at least one value. -/
def loadHistoricalQuietPValues (store : ℤ → Option NightRec) (current : ℤ)
    (daysBack : ℕ) : List ℚ × ℕ :=
  let contribs := (List.range daysBack).map
    (fun i : ℕ => contribAt store (current - ((i : ℤ) + 1)))
  (contribs.flatten, (contribs.filter (fun l => !l.isEmpty)).length)

/-! ### Window NaN gate and gap filling (from `compute_pseries`)

Source:
```
nanFrac = np.sum(np.isnan(seg)) / seg.size
if nanFrac > 0.05:
    continue                      # window rejected, no WindowSample
elif nanFrac > 0:
    for c in range(3):
        seg_series = pd.Series(seg[:, c])
        seg_series = seg_series.interpolate(method='linear').bfill().ffill()
        seg[:, c] = seg_series.values
```
The composite `interpolate('linear').bfill().ffill()` keeps valid samples,
fills an interior gap linearly between its two bounding valid samples,
gives samples before the first valid sample that sample's value and
samples after the last valid sample that sample's value.
-/

/-- One second of raw samples: the `(X, Y, Z)` triple. -/
abbrev Triple := FVal × FVal × FVal

/-- The X channel of a window. -/
def chanX (seg : List Triple) : List FVal := seg.map (fun s => s.1)

/-- The Y channel of a window. -/
def chanY (seg : List Triple) : List FVal := seg.map (fun s => s.2.1)

/-- The Z channel of a window. -/
def chanZ (seg : List Triple) : List FVal := seg.map (fun s => s.2.2)

/-- Number of non-finite samples in a channel. -/
def nanCount (xs : List FVal) : ℕ := xs.countP (fun v => v.isNone)

/-- Total non-finite samples in the window (`np.sum(np.isnan(seg))`). -/
def segNanCount (seg : List Triple) : ℕ :=
  nanCount (chanX seg) + nanCount (chanY seg) + nanCount (chanZ seg)

/-- Latest valid sample at or before index `k`. -/
def prevValid (xs : List FVal) : ℕ → Option (ℕ × ℚ)
  | 0 =>
    match xs.getD 0 none with
    | some v => some (0, v)
    | none => none
  | k + 1 =>
    match xs.getD (k + 1) none with
    | some v => some (k + 1, v)
    | none => prevValid xs k

/-- Scan upward from index `k` for a valid sample, with enough fuel to
reach the end of the channel. -/
def nextValidAux (xs : List FVal) : ℕ → ℕ → Option (ℕ × ℚ)
  | _, 0 => none
  | k, fuel + 1 =>
    match xs.getD k none with
    | some v => some (k, v)
    | none => nextValidAux xs (k + 1) (fuel)

/-- Earliest valid sample at or after index `k`. -/
def nextValid (xs : List FVal) (k : ℕ) : Option (ℕ × ℚ) :=
  nextValidAux xs k (xs.length - k)

/-- Value at index `k` of a channel after the composite
`interpolate('linear').bfill().ffill()`. -/
def interpAt (xs : List FVal) (k : ℕ) : FVal :=
  match xs.getD k none with
  | some v => some v
  | none =>
    match prevValid xs k, nextValid xs k with
    | some (i, a), some (j, b) => some (a + (b - a) * (((k : ℚ) - i) / ((j : ℚ) - i)))
    | some (_, a), none => some a
    | none, some (_, b) => some b
    | none, none => none

/-- A whole channel after gap filling. -/
def fillChannel (xs : List FVal) : List FVal :=
  (List.range xs.length).map (fun k => interpAt xs k)

/-- NaN gate of the spectral extractor: reject the window (produce no
sample) when more than 5% of its values are non-finite, otherwise fill the
channels — only touching them when something is actually missing. -/
def processWindow (seg : List Triple) : Option (List FVal × List FVal × List FVal) :=
  if (1 : ℚ) / 20 < (segNanCount seg : ℚ) / (3 * seg.length) then none
  else if segNanCount seg = 0 then some (chanX seg, chanY seg, chanZ seg)
  else some (fillChannel (chanX seg), fillChannel (chanY seg), fillChannel (chanZ seg))

/-! ### EVT threshold calibrator (from `fit_evt_threshold` and
`fit_ksigma_threshold`)

Source:
```
def fit_ksigma_threshold(Pq, K, pFloor):
    Pq = Pq[np.isfinite(Pq)]
    if len(Pq) == 0: return pFloor if pFloor > 0 else 0.0
    mu = np.mean(Pq); sd = np.std(Pq)
    if pFloor > 0: return max(mu + K * sd, pFloor)
    return mu + K * sd

def fit_evt_threshold(Pq, tailQ, fpr, pFloor, kSigma):
    Pq = Pq[np.isfinite(Pq)]
    if len(Pq) < 20: return fit_ksigma_threshold(Pq, kSigma, pFloor)
    u = np.quantile(Pq, tailQ)
    X = Pq[Pq > u] - u
    if len(X) < 30: return fit_ksigma_threshold(Pq, kSigma, pFloor)
    try:
        k, sigma, loc = genpareto.fit(X, floc=0)
        if not (np.isfinite(k) and np.isfinite(sigma) and sigma > 0 and k > -0.5):
            return fit_ksigma_threshold(Pq, kSigma, pFloor)
        qTail = genpareto.ppf(1 - fpr, k, scale=sigma, loc=0)
        if not (np.isfinite(qTail) and qTail >= 0):
            return fit_ksigma_threshold(Pq, kSigma, pFloor)
        thr = u + qTail
        if pFloor > 0: thr = max(thr, pFloor)
        return thr
    except:
        return fit_ksigma_threshold(Pq, kSigma, pFloor)
```
The numerical GPD routines (`genpareto.fit`, a maximum-likelihood
optimizer, and `genpareto.ppf`) and the floating `np.sqrt` inside `np.std`
are abstracted as oracle parameters; the guards and control flow around
them are embedded and the theorems hold for every oracle.
-/

/-- `np.mean`. -/
def npMean (xs : List ℚ) : ℚ := xs.sum / xs.length

/-- The radicand of `np.std` (population variance). -/
def npVar (xs : List ℚ) : ℚ :=
  ((xs.map (fun x => (x - npMean xs) ^ 2)).sum) / xs.length

/-- `np.quantile(xs, q)` with the default linear interpolation: with `s`
the sorted values and `h = q·(n−1)`, the result is
`s[⌊h⌋] + (h − ⌊h⌋)·(s[⌊h⌋+1] − s[⌊h⌋])`, the upper index clipped to
`n−1`. -/
def npQuantile (xs : List ℚ) (q : ℚ) : ℚ :=
  let s := xs.mergeSort (fun a b => decide (a ≤ b))
  let n := s.length
  if n = 0 then 0
  else
    let h : ℚ := q * ((n : ℚ) - 1)
    let i : ℕ := (⌊h⌋).toNat
    let lo := s.getD i 0
    let hi := s.getD (min (i + 1) (n - 1)) lo
    lo + (h - (i : ℚ)) * (hi - lo)

/-- The exceedances `X = Pq[Pq > u] - u`. -/
def exceedancesAbove (Pq : List ℚ) (u : ℚ) : List ℚ :=
  (Pq.filter (fun x => decide (u < x))).map (fun x => x - u)

/-- The numerical GPD routines, abstracted.  `fit` returns the fitted
`(shape, scale)` pair, `none` when the optimizer raises, with an inner
`none` for a non-finite fitted parameter; `ppf p k sigma` is the
`p`-quantile of the fitted distribution with location 0 (`none` when
non-finite). -/
structure GpdOracle where
  fit : List ℚ → Option (FVal × FVal)
  ppf : ℚ → ℚ → ℚ → FVal

/-- `fit_ksigma_threshold`, over an evaluator `sqrtFn` for the square
root taken by `np.std`. -/
def fitKsigmaThreshold (sqrtFn : ℚ → ℚ) (Pq0 : List FVal) (K pFloor : ℚ) : ℚ :=
  let Pq := Pq0.filterMap id
  if Pq.length = 0 then (if 0 < pFloor then pFloor else 0)
  else
    let mu := npMean Pq
    let sd := sqrtFn (npVar Pq)
    if 0 < pFloor then max (mu + K * sd) pFloor else mu + K * sd

/-- `fit_evt_threshold`. -/
def fitEvtThreshold (O : GpdOracle) (sqrtFn : ℚ → ℚ) (Pq0 : List FVal)
    (tailQ fpr pFloor K : ℚ) : ℚ :=
  let Pq := Pq0.filterMap id
  if Pq.length < 20 then fitKsigmaThreshold sqrtFn (Pq.map some) K pFloor
  else
    let u := npQuantile Pq tailQ
    let X := exceedancesAbove Pq u
    if X.length < 30 then fitKsigmaThreshold sqrtFn (Pq.map some) K pFloor
    else
      match O.fit X with
      | some (some k, some sigma) =>
        if 0 < sigma ∧ -(1/2) < k then
          match O.ppf (1 - fpr) k sigma with
          | some qTail =>
            if 0 ≤ qTail then
              (if 0 < pFloor then max (u + qTail) pFloor else u + qTail)
            else fitKsigmaThreshold sqrtFn (Pq.map some) K pFloor
          | none => fitKsigmaThreshold sqrtFn (Pq.map some) K pFloor
        else fitKsigmaThreshold sqrtFn (Pq.map some) K pFloor
      | _ => fitKsigmaThreshold sqrtFn (Pq.map some) K pFloor

/-- The GPD fit is rejected: the optimizer raised, a fitted parameter is
non-finite, the scale is non-positive, the shape is at most −0.5, or the
tail quantile is non-finite or negative. -/
def gpdRejected (O : GpdOracle) (fpr : ℚ) (X : List ℚ) : Prop :=
  match O.fit X with
  | some (some k, some sigma) =>
    sigma ≤ 0 ∨ k ≤ -(1/2) ∨
      (match O.ppf (1 - fpr) k sigma with
       | some q => q < 0
       | none => True)
  | _ => True

end PRA

namespace PRA

/-- C9: the night gate with `ltStart=20, ltEnd=4` classifies hour 23 as
night, hour 2 as night, hour 4 as not night and hour 19 as not night; the
boundary is inclusive at `ltStart` (hour 20 is night) and exclusive at
`ltEnd` (hour 3 is night, hour 4 is not). -/
theorem night_gate_c9 :
    isNightHour 20 4 23 = true ∧ isNightHour 20 4 2 = true ∧
    isNightHour 20 4 4 = false ∧ isNightHour 20 4 19 = false ∧
    isNightHour 20 4 20 = true ∧ isNightHour 20 4 3 = true := by
  decide

theorem setTrueRange_length (out : List Bool) (a b : ℕ) :
    (setTrueRange out a b).length = out.length := by
  simp [setTrueRange]

theorem setTrueRange_getD (out : List Bool) (a b j : ℕ) (hj : j < out.length) :
    (setTrueRange out a b).getD j false
      = (out.getD j false || (decide (a ≤ j) && decide (j < b))) := by
  have h1 : j < (setTrueRange out a b).length := by
    rw [setTrueRange_length]; exact hj
  rw [List.getD_eq_getElem _ _ h1]
  simp [setTrueRange]

theorem getD_false_lt {l : List Bool} {j : ℕ} (h : l.getD j false = true) :
    j < l.length := by
  by_contra hc
  rw [List.getD_eq_default _ _ (le_of_not_lt hc)] at h
  exact Bool.false_ne_true h

theorem guardFold_length (g : ℤ) (len : ℕ) (ks : List ℕ) (out : List Bool) :
    (ks.foldl (guardStep g len) out).length = out.length := by
  induction ks generalizing out with
  | nil => rfl
  | cons k ks ih =>
    rw [List.foldl_cons, ih, guardStep, setTrueRange_length]

theorem guardFold_mono (g : ℤ) (len : ℕ) (ks : List ℕ) (out : List Bool) (j : ℕ)
    (h : out.getD j false = true) :
    (ks.foldl (guardStep g len) out).getD j false = true := by
  induction ks generalizing out with
  | nil => exact h
  | cons k ks ih =>
    rw [List.foldl_cons]
    apply ih
    have hj : j < out.length := getD_false_lt h
    rw [guardStep, setTrueRange_getD _ _ _ _ hj, h, Bool.true_or]

theorem guardFold_sound (g : ℤ) (len : ℕ) (ks : List ℕ) (out : List Bool) (j : ℕ)
    (h : (ks.foldl (guardStep g len) out).getD j false = true) :
    out.getD j false = true ∨
      ∃ k ∈ ks, ((k : ℤ) - g).toNat ≤ j ∧ j < min len ((k : ℤ) + g + 1).toNat := by
  induction ks generalizing out with
  | nil => exact Or.inl h
  | cons k ks ih =>
    rw [List.foldl_cons] at h
    rcases ih (guardStep g len out k) h with h1 | ⟨k', hk', hr⟩
    · have hj : j < (guardStep g len out k).length := getD_false_lt h1
      rw [guardStep, setTrueRange_length] at hj
      rw [guardStep, setTrueRange_getD _ _ _ _ hj] at h1
      rcases Bool.or_eq_true_iff.mp h1 with h2 | h2
      · exact Or.inl h2
      · rcases Bool.and_eq_true_iff.mp h2 with ⟨ha, hb⟩
        exact Or.inr ⟨k, List.mem_cons_self _ _, of_decide_eq_true ha, of_decide_eq_true hb⟩
    · exact Or.inr ⟨k', List.mem_cons_of_mem _ hk', hr⟩

/-- C10: guard-band dilation (`apply_guard`) preserves the mask length, is
the identity for a non-positive radius, is extensive (every disturbed input
minute stays disturbed), and is sound: every disturbed output minute is
either disturbed in the input or lies within the radius of some disturbed
input minute. -/
theorem guard_dilation_c10 (mask : List Bool) (g : ℤ) :
    (applyGuard mask g).length = mask.length ∧
    (g ≤ 0 → applyGuard mask g = mask) ∧
    (∀ j, mask.getD j false = true → (applyGuard mask g).getD j false = true) ∧
    (∀ j, (applyGuard mask g).getD j false = true →
      mask.getD j false = true ∨
        ∃ k, mask.getD k false = true ∧ (k : ℤ) - g ≤ j ∧ (j : ℤ) ≤ k + g) := by
  by_cases hg : g ≤ 0
  · refine ⟨by rw [applyGuard, if_pos hg], fun _ => by rw [applyGuard, if_pos hg],
      fun j hj => by rwa [applyGuard, if_pos hg], fun j hj => ?_⟩
    rw [applyGuard, if_pos hg] at hj
    exact Or.inl hj
  · rw [applyGuard, if_neg hg]
    refine ⟨guardFold_length _ _ _ _, fun h => absurd h hg,
      fun j hj => guardFold_mono _ _ _ _ _ hj, fun j hj => ?_⟩
    rcases guardFold_sound _ _ _ _ _ hj with h | ⟨k, hk, h1, h2⟩
    · exact Or.inl h
    · right
      have hkm := (List.mem_filter.mp hk).2
      refine ⟨k, hkm, Int.toNat_le.mp h1, ?_⟩
      have h3 : j < ((k : ℤ) + g + 1).toNat := lt_of_lt_of_le h2 (min_le_right _ _)
      have h4 : (j : ℤ) < (k : ℤ) + g + 1 := Int.lt_toNat.mp h3
      omega

/-- Closed witness for `guard_dilation_c10` on a concrete mask: dilating
`[false, true, false, false]` by radius 1 yields `[true, true, true, false]`. -/
theorem guard_dilation_c10_witness :
    ((applyGuard [false, true, false, false] 1).length
        = ([false, true, false, false] : List Bool).length ∧
     ((1 : ℤ) ≤ 0 → applyGuard [false, true, false, false] 1 = [false, true, false, false]) ∧
     (∀ j, ([false, true, false, false] : List Bool).getD j false = true →
        (applyGuard [false, true, false, false] 1).getD j false = true) ∧
     (∀ j, (applyGuard [false, true, false, false] 1).getD j false = true →
        ([false, true, false, false] : List Bool).getD j false = true ∨
          ∃ k, ([false, true, false, false] : List Bool).getD k false = true ∧
            (k : ℤ) - 1 ≤ j ∧ (j : ℤ) ≤ k + 1)) ∧
    applyGuard [false, true, false, false] 1 = [true, true, true, false] :=
  ⟨guard_dilation_c10 [false, true, false, false] 1, by decide⟩

theorem epsGuard_pos (SG : List ℚ) : 0 < epsGuard SG := by
  have h : (0 : ℚ) < 1 / 10 ^ 10 := by norm_num
  exact lt_max_of_lt_left h

theorem safeSG_getD (SG : List ℚ) (i : ℕ) (hi : i < SG.length) :
    (safeSG SG).getD i 0 = max (SG.getD i 0) (epsGuard SG) := by
  have hlen : i < (safeSG SG).length := by simpa [safeSG] using hi
  rw [List.getD_eq_getElem _ _ hlen, List.getD_eq_getElem _ _ hi]
  simp only [safeSG, List.getElem_map]
  rcases le_or_lt (SG[i]) (epsGuard SG) with h | h
  · rw [max_eq_right h, if_neg (not_lt.mpr h)]
  · rw [max_eq_left h.le, if_pos h]

/-- C4: the disturbance classifier computes, per window, the fraction of
index samples within ±30 minutes of the midpoint whose value is strictly
below the threshold, and labels the window quiet iff that fraction is at
most the tolerance (`tolTight` in tight mode, `tol` otherwise); a window
with no index samples in range is quiet with fraction 0, and an entirely
empty disturbance series makes every window quiet with fraction 0. -/
theorem quiet_flags_c4 (T : List ℚ) (GI : List (ℚ × ℚ)) (tol : ℚ) (tight : Bool)
    (tolTight thr : ℚ) :
    (computeQuietFlags T GI tol tight tolTight thr).length = T.length ∧
    (∀ s t, s ∈ windowSubset GI t ↔ s ∈ GI ∧ t - 30 ≤ s.1 ∧ s.1 ≤ t + 30) ∧
    (GI = [] → ∀ i, i < T.length →
      (computeQuietFlags T GI tol tight tolTight thr).getD i (true, 0) = (true, 0)) ∧
    (GI ≠ [] → ∀ i, i < T.length →
      (windowSubset GI (T.getD i 0) = [] →
        (computeQuietFlags T GI tol tight tolTight thr).getD i (true, 0) = (true, 0)) ∧
      (windowSubset GI (T.getD i 0) ≠ [] →
        ((computeQuietFlags T GI tol tight tolTight thr).getD i (true, 0)).2
            = fracBelow (windowSubset GI (T.getD i 0)) thr ∧
        (((computeQuietFlags T GI tol tight tolTight thr).getD i (true, 0)).1 = true ↔
          fracBelow (windowSubset GI (T.getD i 0)) thr
            ≤ (if tight then tolTight else tol)))) := by
  have hmap : ∀ (f : ℚ → Bool × ℚ) (i : ℕ), i < T.length →
      (T.map f).getD i (true, 0) = f (T.getD i 0) := by
    intro f i hi
    have h1 : i < (T.map f).length := by simpa using hi
    rw [List.getD_eq_getElem _ _ h1, List.getD_eq_getElem _ _ hi]
    simp
  refine ⟨?_, ?_, ?_, ?_⟩
  · by_cases h : GI.isEmpty <;> simp [computeQuietFlags, h]
  · intro s t
    simp [windowSubset, List.mem_filter, and_assoc]
  · intro hGI i hi
    rw [computeQuietFlags, if_pos (by simp [hGI]), hmap _ _ hi]
  · intro hGI i hi
    have hne : GI.isEmpty = false := by
      cases GI with
      | nil => exact absurd rfl hGI
      | cons a l => rfl
    constructor
    · intro hsub
      rw [computeQuietFlags, if_neg (by simp [hne]), hmap _ _ hi]
      unfold quietFlagAt
      rw [hsub]
      simp
    · intro hsub
      have hlen : ¬ (windowSubset GI (T.getD i 0)).length = 0 := by
        simpa [List.length_eq_zero] using hsub
      rw [computeQuietFlags, if_neg (by simp [hne]), hmap _ _ hi]
      simp only [quietFlagAt]
      rw [if_neg hlen]
      exact ⟨rfl, by simp⟩

/-- Closed witness for `quiet_flags_c4`: a night with two window midpoints
(minutes 0 and 100) and an index series with a disturbed sample at minute 5
and a calm sample at minute 90; the first window is disturbed with fraction
1, the second quiet with fraction 0. -/
theorem quiet_flags_c4_witness :
    ((computeQuietFlags [0, 100] [(5, -50), (90, 0)] (1/20) false (1/50) (-30)).length
        = ([0, 100] : List ℚ).length ∧
     (∀ s t, s ∈ windowSubset [(5, -50), (90, 0)] t ↔
        s ∈ ([(5, -50), (90, 0)] : List (ℚ × ℚ)) ∧ t - 30 ≤ s.1 ∧ s.1 ≤ t + 30) ∧
     (([(5, -50), (90, 0)] : List (ℚ × ℚ)) = [] → ∀ i, i < ([0, 100] : List ℚ).length →
       (computeQuietFlags [0, 100] [(5, -50), (90, 0)] (1/20) false (1/50) (-30)).getD i (true, 0)
          = (true, 0)) ∧
     (([(5, -50), (90, 0)] : List (ℚ × ℚ)) ≠ [] → ∀ i, i < ([0, 100] : List ℚ).length →
       (windowSubset [(5, -50), (90, 0)] (([0, 100] : List ℚ).getD i 0) = [] →
         (computeQuietFlags [0, 100] [(5, -50), (90, 0)] (1/20) false (1/50) (-30)).getD i (true, 0)
            = (true, 0)) ∧
       (windowSubset [(5, -50), (90, 0)] (([0, 100] : List ℚ).getD i 0) ≠ [] →
         ((computeQuietFlags [0, 100] [(5, -50), (90, 0)] (1/20) false (1/50) (-30)).getD i (true, 0)).2
             = fracBelow (windowSubset [(5, -50), (90, 0)] (([0, 100] : List ℚ).getD i 0)) (-30) ∧
         (((computeQuietFlags [0, 100] [(5, -50), (90, 0)] (1/20) false (1/50) (-30)).getD i (true, 0)).1 = true ↔
           fracBelow (windowSubset [(5, -50), (90, 0)] (([0, 100] : List ℚ).getD i 0)) (-30)
             ≤ (if false then (1/50 : ℚ) else 1/20))))) ∧
    computeQuietFlags [0, 100] [(5, -50), (90, 0)] (1/20) false (1/50) (-30)
      = [(false, 1), (true, 0)] := by
  constructor
  · exact quiet_flags_c4 [0, 100] [(5, -50), (90, 0)] (1/20) false (1/50) (-30)
  · norm_num [computeQuietFlags, quietFlagAt, windowSubset, fracBelow, List.filter]

theorem map3_length {α β γ δ : Type} (f : α → β → γ → δ) (as : List α) (bs : List β)
    (cs : List γ) :
    (map3 f as bs cs).length = min as.length (min bs.length cs.length) := by
  induction as generalizing bs cs with
  | nil => simp [map3]
  | cons a as ih =>
    cases bs with
    | nil => simp [map3]
    | cons b bs =>
      cases cs with
      | nil => simp [map3]
      | cons c cs =>
        simp only [map3, List.length_cons, ih]
        omega

theorem map3_getElem? {α β γ δ : Type} (f : α → β → γ → δ) (as : List α) :
    ∀ (bs : List β) (cs : List γ) (i : ℕ) (a : α) (b : β) (c : γ),
      as[i]? = some a → bs[i]? = some b → cs[i]? = some c →
      (map3 f as bs cs)[i]? = some (f a b c) := by
  induction as with
  | nil => intro bs cs i a b c ha _ _; simp at ha
  | cons x as ih =>
    intro bs cs i a b c ha hb hc
    cases bs with
    | nil => simp at hb
    | cons y bs =>
      cases cs with
      | nil => simp at hc
      | cons z cs =>
        cases i with
        | zero =>
          simp only [List.getElem?_cons_zero, Option.some.injEq] at ha hb hc
          subst ha; subst hb; subst hc
          simp [map3]
        | succ n =>
          simp only [List.getElem?_cons_succ] at ha hb hc
          show (f x y z :: map3 f as bs cs)[n + 1]? = some (f a b c)
          rw [List.getElem?_cons_succ]
          exact ih bs cs n a b c ha hb hc

theorem count_true_anomIndices (A : List Bool) :
    A.count true = (anomIndices A).length := by
  induction A with
  | nil => rfl
  | cons b A ih =>
    have hcomp : ((fun i => (b :: A).getD i false) ∘ Nat.succ)
        = (fun i => A.getD i false) := by
      funext i
      simp [Function.comp, List.getD_cons_succ]
    have hrange : anomIndices (b :: A)
        = List.filter (fun i => (b :: A).getD i false)
            (0 :: (List.range A.length).map Nat.succ) := by
      rw [anomIndices, List.length_cons, List.range_succ_eq_map]
    rw [hrange, List.filter_cons]
    cases b with
    | false =>
      rw [if_neg (show ¬ (((false : Bool) :: A).getD 0 false = true) by simp),
        List.filter_map, hcomp, List.count_cons]
      simp [ih, anomIndices]
    | true =>
      rw [if_pos (show (((true : Bool) :: A).getD 0 false = true) by rfl),
        List.count_cons_self, List.filter_map, hcomp]
      simp [ih, anomIndices]

/-- C2: the anomaly decision engine marks a window anomalous-quiet iff
`P > threshold` and the window is quiet and the amplitude guard passes;
with persistence disabled the night flag is true iff some window is
anomalous-quiet; the reported count equals the number of anomalous-quiet
windows; and the anomaly table has exactly one row per anomalous-quiet
window, carrying its ratio value and the computed threshold. -/
theorem decision_engine_c2 (T P nZl : List ℚ) (quiet : List Bool) (thr : ℚ)
    (useZ : Bool) (stat : Option (ℚ × ℚ)) (zMin fixedMin eqDate Dd : ℚ) (K : ℕ)
    (hq : quiet.length = P.length) (hz : nZl.length = P.length)
    (_ht : T.length = P.length) :
    (isAnomQuietList P nZl quiet thr useZ stat zMin fixedMin).length = P.length ∧
    (∀ i, i < P.length →
      ((isAnomQuietList P nZl quiet thr useZ stat zMin fixedMin).getD i false = true ↔
        (thr < P.getD i 0 ∧ quiet.getD i false = true ∧
          nzGuardPass useZ stat zMin fixedMin (nZl.getD i 0) = true))) ∧
    ((analyzeRowDecision T P nZl quiet thr useZ stat zMin fixedMin false K Dd eqDate).1 = true
      ↔ ∃ i, (isAnomQuietList P nZl quiet thr useZ stat zMin fixedMin).getD i false = true) ∧
    (analyzeRowDecision T P nZl quiet thr useZ stat zMin fixedMin false K Dd eqDate).2.1
      = (anomIndices (isAnomQuietList P nZl quiet thr useZ stat zMin fixedMin)).length ∧
    (analyzeRowDecision T P nZl quiet thr useZ stat zMin fixedMin false K Dd eqDate).2.2.length
      = (anomIndices (isAnomQuietList P nZl quiet thr useZ stat zMin fixedMin)).length ∧
    (∀ i, i < P.length →
      (isAnomQuietList P nZl quiet thr useZ stat zMin fixedMin).getD i false = true →
      (⟨T.getD i 0, (T.getD i 0 - eqDate) / 86400, P.getD i 0, nZl.getD i 0, thr⟩ : AnomRow)
        ∈ (analyzeRowDecision T P nZl quiet thr useZ stat zMin fixedMin false K Dd eqDate).2.2) ∧
    (∀ r ∈ (analyzeRowDecision T P nZl quiet thr useZ stat zMin fixedMin false K Dd eqDate).2.2,
      r.thrVal = thr ∧ ∃ i, i < P.length ∧
        (isAnomQuietList P nZl quiet thr useZ stat zMin fixedMin).getD i false = true ∧
        r.value = P.getD i 0 ∧ r.time = T.getD i 0) := by
  have hgetq : ∀ {α : Type} (l : List α) (d : α) (i : ℕ), i < l.length →
      l[i]? = some (l.getD i d) := by
    intro α l d i hi
    rw [List.getElem?_eq_getElem hi, List.getD_eq_getElem _ _ hi]
  have hAlen : (isAnomQuietList P nZl quiet thr useZ stat zMin fixedMin).length
      = P.length := by
    rw [isAnomQuietList, map3_length, hq, hz]
    simp
  have hgetA : ∀ i, i < P.length →
      (isAnomQuietList P nZl quiet thr useZ stat zMin fixedMin).getD i false
        = (decide (thr < P.getD i 0) && quiet.getD i false
            && nzGuardPass useZ stat zMin fixedMin (nZl.getD i 0)) := by
    intro i hi
    have h := map3_getElem?
      (fun p q z => decide (thr < p) && q && nzGuardPass useZ stat zMin fixedMin z)
      P quiet nZl i (P.getD i 0) (quiet.getD i false) (nZl.getD i 0)
      (hgetq P 0 i hi) (hgetq quiet false i (hq ▸ hi)) (hgetq nZl 0 i (hz ▸ hi))
    rw [List.getD_eq_getElem?_getD, isAnomQuietList, h]
    rfl
  refine ⟨hAlen, ?_, ?_, count_true_anomIndices _, List.length_map _ _, ?_, ?_⟩
  · intro i hi
    rw [hgetA i hi]
    simp [Bool.and_eq_true, and_assoc]
  · show (isAnomQuietList P nZl quiet thr useZ stat zMin fixedMin).any id = true ↔ _
    rw [List.any_eq_true]
    constructor
    · rintro ⟨x, hx, hxt⟩
      obtain ⟨n, hn⟩ := List.mem_iff_getElem?.mp hx
      refine ⟨n, ?_⟩
      rw [List.getD_eq_getElem?_getD, hn]
      simpa using hxt
    · rintro ⟨i, hi⟩
      have hlt : i < (isAnomQuietList P nZl quiet thr useZ stat zMin fixedMin).length :=
        getD_false_lt hi
      refine ⟨_, List.getElem_mem hlt, ?_⟩
      rw [List.getD_eq_getElem _ _ hlt] at hi
      simpa using hi
  · intro i hi hAi
    have hmem : i ∈ anomIndices (isAnomQuietList P nZl quiet thr useZ stat zMin fixedMin) :=
      List.mem_filter.mpr ⟨List.mem_range.mpr (hAlen ▸ hi), hAi⟩
    exact List.mem_map.mpr ⟨i, hmem, rfl⟩
  · intro r hr
    obtain ⟨i, hi, rfl⟩ := List.mem_map.mp hr
    obtain ⟨hir, hAi⟩ := List.mem_filter.mp hi
    exact ⟨rfl, i, hAlen ▸ List.mem_range.mp hir, hAi, rfl, rfl⟩

/-- Closed witness for `decision_engine_c2`, on the spec's scenario: eight
quiet windows, seven with `P = 1` and one with `P = 5`, threshold `1.4`,
guard passing everywhere; the night is anomalous with exactly one anomaly
row carrying value `5` and threshold `1.4`. -/
theorem decision_engine_c2_witness :
    ((analyzeRowDecision [0, 0, 0, 0, 0, 0, 0, 0] [1, 1, 1, 1, 1, 1, 1, 5]
        [3, 3, 3, 3, 3, 3, 3, 3] [true, true, true, true, true, true, true, true]
        (7/5) true none (5/4) (5/2) false 2 2 0).1 = true
      ↔ ∃ i, (isAnomQuietList [1, 1, 1, 1, 1, 1, 1, 5] [3, 3, 3, 3, 3, 3, 3, 3]
          [true, true, true, true, true, true, true, true]
          (7/5) true none (5/4) (5/2)).getD i false = true) ∧
    analyzeRowDecision [0, 0, 0, 0, 0, 0, 0, 0] [1, 1, 1, 1, 1, 1, 1, 5]
        [3, 3, 3, 3, 3, 3, 3, 3] [true, true, true, true, true, true, true, true]
        (7/5) true none (5/4) (5/2) false 2 2 0
      = (true, 1, [⟨0, 0, 5, 3, 7/5⟩]) := by
  constructor
  · exact (decision_engine_c2 [0, 0, 0, 0, 0, 0, 0, 0] [1, 1, 1, 1, 1, 1, 1, 5]
      [3, 3, 3, 3, 3, 3, 3, 3] [true, true, true, true, true, true, true, true]
      (7/5) true none (5/4) (5/2) 0 2 2 rfl rfl rfl).2.2.1
  · have hA : isAnomQuietList [1, 1, 1, 1, 1, 1, 1, 5] [3, 3, 3, 3, 3, 3, 3, 3]
        [true, true, true, true, true, true, true, true] (7/5) true none (5/4) (5/2)
        = [false, false, false, false, false, false, false, true] := by
      norm_num [isAnomQuietList, map3, nzGuardPass]
    have hIdx : anomIndices [false, false, false, false, false, false, false, true]
        = [7] := rfl
    simp only [analyzeRowDecision, hA, nightDecision, anomTable, hIdx]
    norm_num

/-- C3: if the nightly JSON record for the target station and night is
already persisted and the force-rerun flag is unset, the orchestrator gate
returns success immediately with the state unchanged, for EVERY
continuation `runRest` — so no recomputation can occur and no persisted
state is touched.  (The station folder exists because a record inside it
does.) -/
theorem idempotent_rerun_c3 (runRest : OrchState → Option Bool × OrchState)
    (station : String) (today : ℤ) (st : OrchState)
    (hrec : recordExists st station today = true)
    (hfold : station ∈ st.folders) :
    processStationGate runRest station today false st = (some true, st) := by
  have hmk : mkdirP st station = st := by rw [mkdirP, if_pos hfold]
  simp [processStationGate, hmk, hrec]

/-- Closed witness for `idempotent_rerun_c3`: a state holding the record
for station `K` on day 100; the gate ignores a continuation that would
wipe the filesystem and returns success with the state intact. -/
theorem idempotent_rerun_c3_witness :
    processStationGate (fun _ => (some false, ⟨[], []⟩)) "K" 100 false
        ⟨["K"], [⟨"K", some 100, ArtifactKind.json⟩]⟩
      = (some true, ⟨["K"], [⟨"K", some 100, ArtifactKind.json⟩]⟩) :=
  idempotent_rerun_c3 (fun _ => (some false, ⟨[], []⟩)) "K" 100
    ⟨["K"], [⟨"K", some 100, ArtifactKind.json⟩]⟩ (by decide) (by decide)

/-- C8: retention pruning with a 7-night horizon keeps exactly the
artifacts that are not this station's with an embedded date strictly older
than `current - 7`; the survivors form a sublist of the input (no file is
modified or reordered), every artifact of another station is kept, and
every artifact of this station dated within the last 7 nights is kept. -/
theorem retention_prune_c8 (station : String) (current : ℤ) (fs : List Artifact) :
    (cleanupOldDataFiles station current 7 fs).Sublist fs ∧
    (∀ f, f ∈ cleanupOldDataFiles station current 7 fs ↔
      (f ∈ fs ∧ ¬(f.station = station ∧ ∃ d, f.date = some d ∧ d < current - 7))) := by
  refine ⟨List.filter_sublist fs, ?_⟩
  intro f
  rw [cleanupOldDataFiles, List.mem_filter]
  refine and_congr_right fun _ => ?_
  cases hfd : f.date with
  | none => simp [hfd]
  | some d => simp [hfd, imp_iff_not_or]

/-- Closed witness for `retention_prune_c8`: on day 10, station `K` keeps
its record from day 5 and an undatable file, loses its record from day 1,
and station `J` is untouched. -/
theorem retention_prune_c8_witness :
    ((cleanupOldDataFiles "K" 10 7
        [⟨"K", some 1, ArtifactKind.json⟩, ⟨"K", some 5, ArtifactKind.csv⟩,
         ⟨"J", some 1, ArtifactKind.fig⟩, ⟨"K", none, ArtifactKind.json⟩]).Sublist
        [⟨"K", some 1, ArtifactKind.json⟩, ⟨"K", some 5, ArtifactKind.csv⟩,
         ⟨"J", some 1, ArtifactKind.fig⟩, ⟨"K", none, ArtifactKind.json⟩] ∧
      (∀ f, f ∈ cleanupOldDataFiles "K" 10 7
          [⟨"K", some 1, ArtifactKind.json⟩, ⟨"K", some 5, ArtifactKind.csv⟩,
           ⟨"J", some 1, ArtifactKind.fig⟩, ⟨"K", none, ArtifactKind.json⟩] ↔
        (f ∈ [⟨"K", some 1, ArtifactKind.json⟩, ⟨"K", some 5, ArtifactKind.csv⟩,
              ⟨"J", some 1, ArtifactKind.fig⟩, ⟨"K", none, ArtifactKind.json⟩] ∧
          ¬(f.station = "K" ∧ ∃ d, f.date = some d ∧ d < 10 - 7)))) ∧
    cleanupOldDataFiles "K" 10 7
        [⟨"K", some 1, ArtifactKind.json⟩, ⟨"K", some 5, ArtifactKind.csv⟩,
         ⟨"J", some 1, ArtifactKind.fig⟩, ⟨"K", none, ArtifactKind.json⟩]
      = [⟨"K", some 5, ArtifactKind.csv⟩, ⟨"J", some 1, ArtifactKind.fig⟩,
         ⟨"K", none, ArtifactKind.json⟩] :=
  ⟨retention_prune_c8 "K" 10
    [⟨"K", some 1, ArtifactKind.json⟩, ⟨"K", some 5, ArtifactKind.csv⟩,
     ⟨"J", some 1, ArtifactKind.fig⟩, ⟨"K", none, ArtifactKind.json⟩], by decide⟩

/-- C7: the historical pool loader scans exactly the 6 prior nights, most
recent first, concatenating their contributions in that order; a value is
in the pool iff some prior night (1 to 6 back) has a persisted record in
which a finite `P` value carries a true effective quiet flag; the
effective flag is `isQuiet` when present and else the negation of
`isAnomalous`; missing nights contribute nothing and no more than 6 nights
are ever reported as contributing. -/
theorem historical_pool_c7 (store : ℤ → Option NightRec) (current : ℤ) :
    (loadHistoricalQuietPValues store current 6).1
      = contribAt store (current - 1) ++ contribAt store (current - 2) ++
        contribAt store (current - 3) ++ contribAt store (current - 4) ++
        contribAt store (current - 5) ++ contribAt store (current - 6) ∧
    (∀ v, v ∈ (loadHistoricalQuietPValues store current 6).1 ↔
      ∃ i : ℕ, 1 ≤ i ∧ i ≤ 6 ∧
        ∃ r, store (current - i) = some r ∧ v ∈ dayQuietVals r) ∧
    (∀ r v, v ∈ dayQuietVals r ↔
      ∃ Pv m, r.P = some Pv ∧ effQuietMask r = some m ∧ Pv.length = m.length ∧
        ∃ j : ℕ, Pv[j]? = some (some v) ∧ m[j]? = some true) ∧
    (∀ r q, r.isQuiet = some q → effQuietMask r = some q) ∧
    (∀ r a, r.isQuiet = none → r.isAnomalous = some a →
      effQuietMask r = some (a.map (fun b => !b))) ∧
    (loadHistoricalQuietPValues store current 6).2 ≤ 6 ∧
    (∀ d, store d = none → contribAt store d = []) := by
  have hrange : List.range 6 = [0, 1, 2, 3, 4, 5] := rfl
  refine ⟨?_, ?_, ?_, ?_, ?_, ?_, ?_⟩
  · show (((List.range 6).map
        (fun i : ℕ => contribAt store (current - ((i : ℤ) + 1)))).flatten) = _
    rw [hrange]
    simp [List.append_assoc]
  · intro v
    show v ∈ (((List.range 6).map
        (fun i : ℕ => contribAt store (current - ((i : ℤ) + 1)))).flatten) ↔ _
    rw [List.mem_flatten]
    constructor
    · rintro ⟨l, hl, hvl⟩
      obtain ⟨i, hir, rfl⟩ := List.mem_map.mp hl
      have hi6 : i < 6 := List.mem_range.mp hir
      refine ⟨i + 1, by omega, by omega, ?_⟩
      rw [contribAt] at hvl
      cases hs : store (current - ((i : ℤ) + 1)) with
      | none =>
        rw [hs] at hvl
        exact absurd hvl (List.not_mem_nil v)
      | some r =>
        rw [hs] at hvl
        exact ⟨r, by rw [show ((i + 1 : ℕ) : ℤ) = (i : ℤ) + 1 by push_cast; ring, hs], hvl⟩
    · rintro ⟨i, h1, h6, r, hs, hv⟩
      obtain ⟨k, rfl⟩ : ∃ k : ℕ, i = k + 1 := ⟨i - 1, by omega⟩
      refine ⟨contribAt store (current - ((k : ℤ) + 1)), ?_, ?_⟩
      · exact List.mem_map.mpr ⟨k, List.mem_range.mpr (by omega), rfl⟩
      · rw [show ((k + 1 : ℕ) : ℤ) = (k : ℤ) + 1 by push_cast; ring] at hs
        rw [contribAt, hs]
        exact hv
  · intro r v
    cases hP : r.P with
    | none => simp [dayQuietVals, hP]
    | some Pv =>
      cases hm : effQuietMask r with
      | none => simp [dayQuietVals, hP, hm]
      | some m =>
        by_cases hlen : Pv.length = m.length
        · simp only [dayQuietVals, hP, hm, if_pos hlen]
          constructor
          · intro hv
            obtain ⟨pm, hpm, hg⟩ := List.mem_filterMap.mp hv
            obtain ⟨p1, p2⟩ := pm
            cases p1 with
            | none => cases p2 <;> simp at hg
            | some w =>
              cases p2 with
              | false => simp at hg
              | true =>
                obtain rfl : w = v := by simpa using hg
                obtain ⟨j, hj⟩ := List.mem_iff_getElem?.mp hpm
                rw [List.getElem?_zip_eq_some] at hj
                exact ⟨Pv, m, rfl, rfl, hlen, j, hj.1, hj.2⟩
          · rintro ⟨Pv', m', hP', hm', hlen', j, hjP, hjm⟩
            have hPv : Pv' = Pv := (Option.some.inj hP').symm
            have hmm : m' = m := (Option.some.inj hm').symm
            subst hPv
            subst hmm
            refine List.mem_filterMap.mpr ⟨(some v, true), ?_, rfl⟩
            exact List.mem_iff_getElem?.mpr
              ⟨j, List.getElem?_zip_eq_some.mpr ⟨hjP, hjm⟩⟩
        · simp only [dayQuietVals, hP, hm, if_neg hlen]
          constructor
          · intro hv
            exact absurd hv (List.not_mem_nil v)
          · rintro ⟨Pv', m', hP', hm', hlen', -⟩
            obtain rfl := (Option.some.inj hP').symm
            obtain rfl := (Option.some.inj hm').symm
            exact absurd hlen' hlen
  · intro r q hq
    rw [effQuietMask, hq]
  · intro r a hq ha
    rw [effQuietMask, hq, ha]
  · show ((((List.range 6).map
        (fun i : ℕ => contribAt store (current - ((i : ℤ) + 1)))).filter
        (fun l => !l.isEmpty)).length) ≤ 6
    exact le_trans (List.length_filter_le _ _) (by simp)
  · intro d hd
    rw [contribAt, hd]

/-- Closed witness for `historical_pool_c7`: a store holding one record on
day 9 (`P = [2, NaN, 3]`, `isQuiet = [true, true, false]`); loading for
day 10 yields pool `[2]` from exactly one contributing night. -/
theorem historical_pool_c7_witness :
    ((loadHistoricalQuietPValues
        (fun d => if d = 9 then
          some ⟨some [some 2, none, some 3], some [true, true, false], none⟩
        else none) 10 6).2 ≤ 6 ∧
      (∀ d, (fun d => if d = 9 then
          some (⟨some [some 2, none, some 3], some [true, true, false], none⟩ : NightRec)
        else none) d = none →
        contribAt (fun d => if d = 9 then
          some ⟨some [some 2, none, some 3], some [true, true, false], none⟩
        else none) d = [])) ∧
    loadHistoricalQuietPValues
        (fun d => if d = 9 then
          some ⟨some [some 2, none, some 3], some [true, true, false], none⟩
        else none) 10 6 = ([2], 1) := by
  refine ⟨⟨?_, ?_⟩, ?_⟩
  · exact (historical_pool_c7 (fun d => if d = 9 then
      some ⟨some [some 2, none, some 3], some [true, true, false], none⟩
      else none) 10).2.2.2.2.2.1
  · exact (historical_pool_c7 (fun d => if d = 9 then
      some ⟨some [some 2, none, some 3], some [true, true, false], none⟩
      else none) 10).2.2.2.2.2.2
  · rfl

theorem getD_some_lt {xs : List FVal} {j : ℕ} {b : ℚ}
    (h : xs.getD j none = some b) : j < xs.length := by
  by_contra hc
  rw [List.getD_eq_default _ _ (le_of_not_lt hc)] at h
  exact Option.noConfusion h

theorem prevValid_eq (xs : List FVal) (a : ℚ) :
    ∀ k i : ℕ, i ≤ k → xs.getD i none = some a →
      (∀ m, i < m → m ≤ k → xs.getD m none = none) →
      prevValid xs k = some (i, a) := by
  intro k
  induction k with
  | zero =>
    intro i h1 h2 _
    obtain rfl : i = 0 := Nat.le_zero.mp h1
    show (match xs.getD 0 none with
      | some v => some (0, v)
      | none => none) = some (0, a)
    rw [h2]
  | succ k ih =>
    intro i h1 h2 h3
    show (match xs.getD (k + 1) none with
      | some v => some (k + 1, v)
      | none => prevValid xs k) = some (i, a)
    by_cases hik : i = k + 1
    · subst hik
      rw [h2]
    · have hnone : xs.getD (k + 1) none = none := h3 (k + 1) (by omega) le_rfl
      rw [hnone]
      exact ih i (by omega) h2 (fun m hm1 hm2 => h3 m hm1 (by omega))

theorem prevValid_none (xs : List FVal) :
    ∀ k : ℕ, (∀ m, m ≤ k → xs.getD m none = none) → prevValid xs k = none := by
  intro k
  induction k with
  | zero =>
    intro h
    show (match xs.getD 0 none with
      | some v => some (0, v)
      | none => none) = none
    rw [h 0 le_rfl]
  | succ k ih =>
    intro h
    show (match xs.getD (k + 1) none with
      | some v => some (k + 1, v)
      | none => prevValid xs k) = none
    rw [h (k + 1) le_rfl]
    exact ih (fun m hm => h m (by omega))

theorem nextValidAux_eq (xs : List FVal) (b : ℚ) :
    ∀ fuel k j : ℕ, k ≤ j → j < k + fuel → xs.getD j none = some b →
      (∀ m, k ≤ m → m < j → xs.getD m none = none) →
      nextValidAux xs k fuel = some (j, b) := by
  intro fuel
  induction fuel with
  | zero =>
    intro k j h1 h2 _ _
    omega
  | succ fuel ih =>
    intro k j h1 h2 hj hbet
    show (match xs.getD k none with
      | some v => some (k, v)
      | none => nextValidAux xs (k + 1) fuel) = some (j, b)
    by_cases hkj : k = j
    · subst hkj
      rw [hj]
    · have hk : xs.getD k none = none := hbet k le_rfl (by omega)
      rw [hk]
      exact ih (k + 1) j (by omega) (by omega) hj (fun m hm1 hm2 => hbet m (by omega) hm2)

theorem nextValidAux_none (xs : List FVal) :
    ∀ fuel k : ℕ, (∀ m, k ≤ m → xs.getD m none = none) →
      nextValidAux xs k fuel = none := by
  intro fuel
  induction fuel with
  | zero => intro k _; rfl
  | succ fuel ih =>
    intro k h
    show (match xs.getD k none with
      | some v => some (k, v)
      | none => nextValidAux xs (k + 1) fuel) = none
    rw [h k le_rfl]
    exact ih (k + 1) (fun m hm => h m (by omega))

theorem nextValid_eq (xs : List FVal) (k j : ℕ) (b : ℚ) (h1 : k ≤ j)
    (hj : xs.getD j none = some b)
    (hbet : ∀ m, k ≤ m → m < j → xs.getD m none = none) :
    nextValid xs k = some (j, b) :=
  nextValidAux_eq xs b (xs.length - k) k j h1 (by have := getD_some_lt hj; omega) hj hbet

theorem nextValid_none (xs : List FVal) (k : ℕ)
    (h : ∀ m, k ≤ m → m < xs.length → xs.getD m none = none) :
    nextValid xs k = none := by
  apply nextValidAux_none
  intro m hm
  by_cases hml : m < xs.length
  · exact h m hm hml
  · exact List.getD_eq_default _ _ (le_of_not_lt hml)

theorem fillChannel_getElem? (xs : List FVal) (k : ℕ) (hk : k < xs.length) :
    (fillChannel xs)[k]? = some (interpAt xs k) := by
  rw [fillChannel, List.getElem?_map, List.getElem?_range hk]
  rfl

/-- C6: the spectral extractor rejects a candidate window iff more than 5%
of its samples are non-finite (for a nonempty window this means
`20 · nanCount > 3 · windowLength`, the sample count being three channels
per second); an accepted window with no missing samples passes through
untouched, and an accepted window with missing samples has each channel
gap-filled: valid samples are kept, an interior gap is filled linearly
between the two valid samples bounding it, samples before the first valid
sample take its value and samples after the last valid sample take its
value. -/
theorem window_nan_gate_c6 (seg : List Triple) :
    (processWindow seg = none ↔
      (1 : ℚ) / 20 < (segNanCount seg : ℚ) / (3 * seg.length)) ∧
    (0 < seg.length →
      ((1 : ℚ) / 20 < (segNanCount seg : ℚ) / (3 * seg.length) ↔
        3 * seg.length < 20 * segNanCount seg)) ∧
    (∀ out, processWindow seg = some out → 0 < segNanCount seg →
      out = (fillChannel (chanX seg), fillChannel (chanY seg), fillChannel (chanZ seg))) ∧
    (∀ out, processWindow seg = some out → segNanCount seg = 0 →
      out = (chanX seg, chanY seg, chanZ seg)) ∧
    (∀ xs : List FVal, (fillChannel xs).length = xs.length) ∧
    (∀ (xs : List FVal) (k : ℕ) (v : ℚ), xs.getD k none = some v →
      (fillChannel xs)[k]? = some (some v)) ∧
    (∀ (xs : List FVal) (i j k : ℕ) (a b : ℚ), i < k → k < j →
      xs.getD i none = some a → xs.getD j none = some b →
      (∀ m, i < m → m < j → xs.getD m none = none) →
      (fillChannel xs)[k]? = some (some (a + (b - a) * (((k : ℚ) - i) / ((j : ℚ) - i))))) ∧
    (∀ (xs : List FVal) (j k : ℕ) (b : ℚ), k < j →
      xs.getD j none = some b → (∀ m, m < j → xs.getD m none = none) →
      (fillChannel xs)[k]? = some (some b)) ∧
    (∀ (xs : List FVal) (i k : ℕ) (a : ℚ), i < k → k < xs.length →
      xs.getD i none = some a →
      (∀ m, i < m → m < xs.length → xs.getD m none = none) →
      (fillChannel xs)[k]? = some (some a)) := by
  refine ⟨?_, ?_, ?_, ?_, fun xs => by simp [fillChannel], ?_, ?_, ?_, ?_⟩
  · by_cases hc : (1 : ℚ) / 20 < (segNanCount seg : ℚ) / (3 * seg.length)
    · rw [processWindow, if_pos hc]
      exact iff_of_true rfl hc
    · rw [processWindow, if_neg hc]
      constructor
      · intro h
        split at h <;> exact Option.noConfusion h
      · intro h
        exact absurd h hc
  · intro hn
    have h3n : (0 : ℚ) < 3 * (seg.length : ℚ) := by
      have h1 : 0 < 3 * seg.length := by omega
      exact_mod_cast h1
    rw [div_lt_div_iff₀ (by norm_num) h3n, one_mul,
      show ((segNanCount seg : ℚ)) * 20 = ((20 * segNanCount seg : ℕ) : ℚ) by push_cast; ring,
      show ((3 : ℚ) * (seg.length : ℚ)) = ((3 * seg.length : ℕ) : ℚ) by push_cast; ring]
    exact Nat.cast_lt
  · intro out hout hpos
    rw [processWindow] at hout
    by_cases hc : (1 : ℚ) / 20 < (segNanCount seg : ℚ) / (3 * seg.length)
    · rw [if_pos hc] at hout
      exact Option.noConfusion hout
    · rw [if_neg hc, if_neg (by omega)] at hout
      exact (Option.some.inj hout).symm
  · intro out hout hzero
    rw [processWindow] at hout
    by_cases hc : (1 : ℚ) / 20 < (segNanCount seg : ℚ) / (3 * seg.length)
    · rw [if_pos hc] at hout
      exact Option.noConfusion hout
    · rw [if_neg hc, if_pos hzero] at hout
      exact (Option.some.inj hout).symm
  · intro xs k v hv
    rw [fillChannel_getElem? xs k (getD_some_lt hv), interpAt, hv]
  · intro xs i j k a b hik hkj hi hj hbet
    have hjlen : j < xs.length := getD_some_lt hj
    have hklen : k < xs.length := by omega
    have hk : xs.getD k none = none := hbet k hik hkj
    have hprev : prevValid xs k = some (i, a) :=
      prevValid_eq xs a k i (by omega) hi
        (fun m hm1 hm2 => hbet m hm1 (by omega))
    have hnext : nextValid xs k = some (j, b) :=
      nextValid_eq xs k j b (by omega) hj
        (fun m hm1 hm2 => by
          rcases eq_or_lt_of_le hm1 with rfl | hlt
          · exact hk
          · exact hbet m (by omega) hm2)
    rw [fillChannel_getElem? xs k hklen, interpAt, hk, hprev, hnext]
  · intro xs j k b hkj hj hbet
    have hjlen : j < xs.length := getD_some_lt hj
    have hklen : k < xs.length := by omega
    have hk : xs.getD k none = none := hbet k hkj
    have hprev : prevValid xs k = none :=
      prevValid_none xs k (fun m hm => hbet m (by omega))
    have hnext : nextValid xs k = some (j, b) :=
      nextValid_eq xs k j b (by omega) hj (fun m _ hm2 => hbet m hm2)
    rw [fillChannel_getElem? xs k hklen, interpAt, hk, hprev, hnext]
  · intro xs i k a hik hklen hi hbet
    have hk : xs.getD k none = none := hbet k hik hklen
    have hprev : prevValid xs k = some (i, a) :=
      prevValid_eq xs a k i (by omega) hi
        (fun m hm1 hm2 => hbet m hm1 (by omega))
    have hnext : nextValid xs k = none :=
      nextValid_none xs k (fun m hm1 hm2 => hbet m (by omega) hm2)
    rw [fillChannel_getElem? xs k hklen, interpAt, hk, hprev, hnext]

/-- Closed witness for `window_nan_gate_c6`: a two-second window with one
of six samples missing (16.7% > 5%) is rejected; and on the channel
`[NaN, 1, NaN, 4, NaN]` the fill produces `1` (back-fill) at index 0,
`5/2` (linear) at index 2 and `4` (forward clamp) at index 4. -/
theorem window_nan_gate_c6_witness :
    processWindow [(some 1, some 1, none), (some 1, some 1, some 2)] = none ∧
    (fillChannel [none, some 1, none, some 4, none])[2]? = some (some (5/2)) ∧
    (fillChannel [none, some 1, none, some 4, none])[0]? = some (some 1) ∧
    (fillChannel [none, some 1, none, some 4, none])[4]? = some (some 4) := by
  refine ⟨?_, ?_, ?_, ?_⟩
  · rw [(window_nan_gate_c6 [(some 1, some 1, none), (some 1, some 1, some 2)]).1]
    norm_num [segNanCount, nanCount, chanX, chanY, chanZ, List.countP_cons]
  · have h := (window_nan_gate_c6 ([] : List Triple)).2.2.2.2.2.2.1
      [none, some 1, none, some 4, none] 1 3 2 1 4 (by omega) (by omega) rfl rfl
      (fun m h1 h2 => by
        obtain rfl : m = 2 := by omega
        rfl)
    rw [h]
    norm_num
  · exact (window_nan_gate_c6 ([] : List Triple)).2.2.2.2.2.2.2.1
      [none, some 1, none, some 4, none] 1 0 1 (by omega) rfl
      (fun m hm => by
        obtain rfl : m = 0 := by omega
        rfl)
  · exact (window_nan_gate_c6 ([] : List Triple)).2.2.2.2.2.2.2.2
      [none, some 1, none, some 4, none] 3 4 4 (by omega) (by decide) rfl
      (fun m h1 h2 => by
        have h5 : ([none, some 1, none, some 4, none] : List FVal).length = 5 := rfl
        rw [h5] at h2
        obtain rfl : m = 4 := by omega
        rfl)

theorem getD_nonneg {l : List ℚ} {d : ℚ} (hd : 0 ≤ d) (hl : ∀ x ∈ l, 0 ≤ x)
    (i : ℕ) : 0 ≤ l.getD i d := by
  by_cases h : i < l.length
  · rw [List.getD_eq_getElem _ _ h]
    exact hl _ (List.getElem_mem h)
  · rw [List.getD_eq_default _ _ (le_of_not_lt h)]
    exact hd

theorem filterMap_id_map_some {α : Type} (l : List α) :
    (l.map some).filterMap id = l := by
  rw [List.filterMap_map]
  exact List.filterMap_some l

theorem ksigma_nonneg (sqrtFn : ℚ → ℚ) (Pq0 : List FVal) (K pFloor : ℚ)
    (hs : ∀ x, 0 ≤ x → 0 ≤ sqrtFn x) (hp : ∀ v ∈ Pq0.filterMap id, 0 ≤ v)
    (hK : 0 ≤ K) : 0 ≤ fitKsigmaThreshold sqrtFn Pq0 K pFloor := by
  simp only [fitKsigmaThreshold]
  by_cases h0 : (Pq0.filterMap id).length = 0
  · rw [if_pos h0]
    split_ifs with hf
    · exact le_of_lt hf
    · exact le_rfl
  · rw [if_neg h0]
    have hmu : 0 ≤ npMean (Pq0.filterMap id) :=
      div_nonneg (List.sum_nonneg hp) (Nat.cast_nonneg _)
    have hvar : 0 ≤ npVar (Pq0.filterMap id) := by
      apply div_nonneg _ (Nat.cast_nonneg _)
      apply List.sum_nonneg
      intro x hx
      obtain ⟨y, _, rfl⟩ := List.mem_map.mp hx
      positivity
    have hval : 0 ≤ npMean (Pq0.filterMap id) + K * sqrtFn (npVar (Pq0.filterMap id)) :=
      add_nonneg hmu (mul_nonneg hK (hs _ hvar))
    split_ifs with hf
    · exact le_trans hval (le_max_left _ _)
    · exact hval

theorem npQuantile_nonneg (xs : List ℚ) (q : ℚ) (hxs : ∀ x ∈ xs, 0 ≤ x)
    (hq0 : 0 ≤ q) (_hq1 : q ≤ 1) : 0 ≤ npQuantile xs q := by
  simp only [npQuantile]
  set s := xs.mergeSort (fun a b => decide (a ≤ b)) with hsdef
  have hmem : ∀ x ∈ s, 0 ≤ x := fun x hx => hxs x (List.mem_mergeSort.mp hx)
  by_cases hn : s.length = 0
  · rw [if_pos hn]
  · rw [if_neg hn]
    have hn1 : (1 : ℚ) ≤ (s.length : ℚ) := by
      have : 1 ≤ s.length := Nat.one_le_iff_ne_zero.mpr hn
      exact_mod_cast this
    set h : ℚ := q * ((s.length : ℚ) - 1) with hh
    have hh0 : 0 ≤ h := mul_nonneg hq0 (by linarith)
    have hfl0 : (0 : ℤ) ≤ ⌊h⌋ := Int.floor_nonneg.mpr hh0
    have hi : ((⌊h⌋.toNat : ℕ) : ℚ) = ((⌊h⌋ : ℤ) : ℚ) := by
      exact_mod_cast congrArg (fun z : ℤ => (z : ℚ)) (Int.toNat_of_nonneg hfl0)
    have hgl : ((⌊h⌋.toNat : ℕ) : ℚ) ≤ h := by
      rw [hi]
      exact Int.floor_le h
    have hgu : h - ((⌊h⌋.toNat : ℕ) : ℚ) < 1 := by
      rw [hi]
      have := Int.lt_floor_add_one h
      linarith
    have hlo : 0 ≤ s.getD (⌊h⌋.toNat) 0 := getD_nonneg le_rfl hmem _
    have hhi : 0 ≤ s.getD (min (⌊h⌋.toNat + 1) (s.length - 1)) (s.getD (⌊h⌋.toNat) 0) :=
      getD_nonneg hlo hmem _
    have hg0 : 0 ≤ h - ((⌊h⌋.toNat : ℕ) : ℚ) := by linarith
    nlinarith [mul_nonneg hg0 hhi,
      mul_nonneg (by linarith : (0 : ℚ) ≤ 1 - (h - ((⌊h⌋.toNat : ℕ) : ℚ))) hlo]

theorem fitEvt_short20 (O : GpdOracle) (sqrtFn : ℚ → ℚ) (pool : List FVal)
    (tailQ fpr pFloor K : ℚ) (h20 : (pool.filterMap id).length < 20) :
    fitEvtThreshold O sqrtFn pool tailQ fpr pFloor K
      = fitKsigmaThreshold sqrtFn ((pool.filterMap id).map some) K pFloor := by
  simp only [fitEvtThreshold]
  rw [if_pos h20]

theorem fitEvt_short30 (O : GpdOracle) (sqrtFn : ℚ → ℚ) (pool : List FVal)
    (tailQ fpr pFloor K : ℚ) (h20 : ¬ (pool.filterMap id).length < 20)
    (h30 : (exceedancesAbove (pool.filterMap id)
      (npQuantile (pool.filterMap id) tailQ)).length < 30) :
    fitEvtThreshold O sqrtFn pool tailQ fpr pFloor K
      = fitKsigmaThreshold sqrtFn ((pool.filterMap id).map some) K pFloor := by
  simp only [fitEvtThreshold]
  rw [if_neg h20, if_pos h30]

theorem fitEvt_fitNotOk (O : GpdOracle) (sqrtFn : ℚ → ℚ) (pool : List FVal)
    (tailQ fpr pFloor K : ℚ) (h20 : ¬ (pool.filterMap id).length < 20)
    (h30 : ¬ (exceedancesAbove (pool.filterMap id)
      (npQuantile (pool.filterMap id) tailQ)).length < 30)
    (hbad : ∀ k sigma : ℚ, O.fit (exceedancesAbove (pool.filterMap id)
      (npQuantile (pool.filterMap id) tailQ)) ≠ some (some k, some sigma)) :
    fitEvtThreshold O sqrtFn pool tailQ fpr pFloor K
      = fitKsigmaThreshold sqrtFn ((pool.filterMap id).map some) K pFloor := by
  simp only [fitEvtThreshold]
  rw [if_neg h20, if_neg h30]

theorem fitEvt_fitSome (O : GpdOracle) (sqrtFn : ℚ → ℚ) (pool : List FVal)
    (tailQ fpr pFloor K : ℚ) (k sigma : ℚ)
    (h20 : ¬ (pool.filterMap id).length < 20)
    (h30 : ¬ (exceedancesAbove (pool.filterMap id)
      (npQuantile (pool.filterMap id) tailQ)).length < 30)
    (hfit : O.fit (exceedancesAbove (pool.filterMap id)
      (npQuantile (pool.filterMap id) tailQ)) = some (some k, some sigma)) :
    fitEvtThreshold O sqrtFn pool tailQ fpr pFloor K
      = (if 0 < sigma ∧ -(1/2) < k then
          (match O.ppf (1 - fpr) k sigma with
           | some qTail =>
             if 0 ≤ qTail then
               (if 0 < pFloor then
                 max (npQuantile (pool.filterMap id) tailQ + qTail) pFloor
               else npQuantile (pool.filterMap id) tailQ + qTail)
             else fitKsigmaThreshold sqrtFn ((pool.filterMap id).map some) K pFloor
           | none => fitKsigmaThreshold sqrtFn ((pool.filterMap id).map some) K pFloor)
        else fitKsigmaThreshold sqrtFn ((pool.filterMap id).map some) K pFloor) := by
  simp only [fitEvtThreshold]
  rw [if_neg h20, if_neg h30, hfit]

/-- C1: the EVT threshold calibrator at `tailQ = 0.75`, `fprTarget = 0.05`,
`kSigma = 4.0` returns a (finite, by construction) non-negative value on
every finite non-negative quiet pool and for every GPD oracle; it returns
exactly the k-sigma fallback — `mean + 4·stdev` of the finite pool values,
floored only when the configured floor is strictly positive — whenever
fewer than 20 finite values remain, or fewer than 30 exceedances lie
strictly above the 0.75-quantile cutoff `u`, or the GPD fit is rejected;
and otherwise it returns `u + ppf(1 − 0.05)` at the fitted shape and
scale, floored the same way. -/
theorem evt_calibrator_c1 (O : GpdOracle) (sqrtFn : ℚ → ℚ) (pool : List FVal)
    (pFloor : ℚ) (hs : ∀ x, 0 ≤ x → 0 ≤ sqrtFn x)
    (hp : ∀ v ∈ pool.filterMap id, 0 ≤ v) :
    0 ≤ fitEvtThreshold O sqrtFn pool (3/4) (1/20) pFloor 4 ∧
    (((pool.filterMap id).length < 20 ∨
      (exceedancesAbove (pool.filterMap id)
        (npQuantile (pool.filterMap id) (3/4))).length < 30 ∨
      gpdRejected O (1/20)
        (exceedancesAbove (pool.filterMap id)
          (npQuantile (pool.filterMap id) (3/4)))) →
      fitEvtThreshold O sqrtFn pool (3/4) (1/20) pFloor 4
        = fitKsigmaThreshold sqrtFn ((pool.filterMap id).map some) 4 pFloor) ∧
    ((pool.filterMap id).length ≠ 0 →
      fitKsigmaThreshold sqrtFn ((pool.filterMap id).map some) 4 pFloor
        = (if 0 < pFloor then
            max (npMean (pool.filterMap id) + 4 * sqrtFn (npVar (pool.filterMap id))) pFloor
          else npMean (pool.filterMap id) + 4 * sqrtFn (npVar (pool.filterMap id)))) ∧
    (∀ k sigma qTail,
      ¬ (pool.filterMap id).length < 20 →
      ¬ (exceedancesAbove (pool.filterMap id)
          (npQuantile (pool.filterMap id) (3/4))).length < 30 →
      O.fit (exceedancesAbove (pool.filterMap id)
        (npQuantile (pool.filterMap id) (3/4))) = some (some k, some sigma) →
      0 < sigma → -(1/2) < k →
      O.ppf (1 - 1/20) k sigma = some qTail → 0 ≤ qTail →
      fitEvtThreshold O sqrtFn pool (3/4) (1/20) pFloor 4
        = (if 0 < pFloor then
            max (npQuantile (pool.filterMap id) (3/4) + qTail) pFloor
          else npQuantile (pool.filterMap id) (3/4) + qTail)) := by
  have hp' : ∀ v ∈ (((pool.filterMap id).map some).filterMap id), 0 ≤ v := by
    rw [filterMap_id_map_some]
    exact hp
  have hknn : 0 ≤ fitKsigmaThreshold sqrtFn ((pool.filterMap id).map some) 4 pFloor :=
    ksigma_nonneg sqrtFn _ 4 pFloor hs hp' (by norm_num)
  have hu : 0 ≤ npQuantile (pool.filterMap id) (3/4) :=
    npQuantile_nonneg _ _ hp (by norm_num) (by norm_num)
  refine ⟨?_, ?_, ?_, ?_⟩
  · by_cases h20 : (pool.filterMap id).length < 20
    · rw [fitEvt_short20 O sqrtFn pool (3/4) (1/20) pFloor 4 h20]
      exact hknn
    · by_cases h30 : (exceedancesAbove (pool.filterMap id)
          (npQuantile (pool.filterMap id) (3/4))).length < 30
      · rw [fitEvt_short30 O sqrtFn pool (3/4) (1/20) pFloor 4 h20 h30]
        exact hknn
      · cases hfit : O.fit (exceedancesAbove (pool.filterMap id)
            (npQuantile (pool.filterMap id) (3/4))) with
        | none =>
          rw [fitEvt_fitNotOk O sqrtFn pool (3/4) (1/20) pFloor 4 h20 h30
            (by simp [hfit])]
          exact hknn
        | some pr =>
          obtain ⟨kf, sf⟩ := pr
          cases kf with
          | none =>
            rw [fitEvt_fitNotOk O sqrtFn pool (3/4) (1/20) pFloor 4 h20 h30
              (by simp [hfit])]
            exact hknn
          | some k =>
            cases sf with
            | none =>
              rw [fitEvt_fitNotOk O sqrtFn pool (3/4) (1/20) pFloor 4 h20 h30
                (by simp [hfit])]
              exact hknn
            | some sigma =>
              rw [fitEvt_fitSome O sqrtFn pool (3/4) (1/20) pFloor 4 k sigma h20 h30 hfit]
              by_cases hacc : 0 < sigma ∧ -(1/2) < k
              · rw [if_pos hacc]
                cases hppf : O.ppf (1 - 1/20) k sigma with
                | none => exact hknn
                | some qTail =>
                  have hred : (0:ℚ) ≤
                      (if 0 ≤ qTail then
                        (if 0 < pFloor then
                          max (npQuantile (pool.filterMap id) (3/4) + qTail) pFloor
                        else npQuantile (pool.filterMap id) (3/4) + qTail)
                      else fitKsigmaThreshold sqrtFn
                        ((pool.filterMap id).map some) 4 pFloor) := by
                    split_ifs with hq hf
                    · exact le_trans (by linarith) (le_max_left _ _)
                    · linarith
                    · exact hknn
                  exact hred
              · rw [if_neg hacc]
                exact hknn
  · intro hdisj
    by_cases h20 : (pool.filterMap id).length < 20
    · exact fitEvt_short20 O sqrtFn pool (3/4) (1/20) pFloor 4 h20
    · by_cases h30 : (exceedancesAbove (pool.filterMap id)
          (npQuantile (pool.filterMap id) (3/4))).length < 30
      · exact fitEvt_short30 O sqrtFn pool (3/4) (1/20) pFloor 4 h20 h30
      · have hrej : gpdRejected O (1/20)
            (exceedancesAbove (pool.filterMap id)
              (npQuantile (pool.filterMap id) (3/4))) := by
          rcases hdisj with h | h | h
          · exact absurd h h20
          · exact absurd h h30
          · exact h
        cases hfit : O.fit (exceedancesAbove (pool.filterMap id)
            (npQuantile (pool.filterMap id) (3/4))) with
        | none =>
          exact fitEvt_fitNotOk O sqrtFn pool (3/4) (1/20) pFloor 4 h20 h30
            (by simp [hfit])
        | some pr =>
          obtain ⟨kf, sf⟩ := pr
          cases kf with
          | none =>
            exact fitEvt_fitNotOk O sqrtFn pool (3/4) (1/20) pFloor 4 h20 h30
              (by simp [hfit])
          | some k =>
            cases sf with
            | none =>
              exact fitEvt_fitNotOk O sqrtFn pool (3/4) (1/20) pFloor 4 h20 h30
                (by simp [hfit])
            | some sigma =>
              rw [fitEvt_fitSome O sqrtFn pool (3/4) (1/20) pFloor 4 k sigma h20 h30 hfit]
              simp only [gpdRejected, hfit] at hrej
              by_cases hacc : 0 < sigma ∧ -(1/2) < k
              · rw [if_pos hacc]
                rcases hrej with h | h | h
                · exact absurd hacc.1 (not_lt.mpr h)
                · exact absurd hacc.2 (not_lt.mpr h)
                · cases hppf : O.ppf (1 - 1/20) k sigma with
                  | none => rfl
                  | some qTail =>
                    rw [hppf] at h
                    exact if_neg (not_le.mpr (h : qTail < 0))
              · rw [if_neg hacc]
  · intro hne
    simp only [fitKsigmaThreshold, filterMap_id_map_some]
    rw [if_neg hne]
  · intro k sigma qTail h20 h30 hfit hsig hk hppf hq
    rw [fitEvt_fitSome O sqrtFn pool (3/4) (1/20) pFloor 4 k sigma h20 h30 hfit,
      if_pos ⟨hsig, hk⟩, hppf]
    exact if_pos hq

/-- Closed witness for `evt_calibrator_c1` at a concrete pool of one
finite value `1`, a vacuous oracle and the zero square-root evaluator:
the k-sigma fallback fires (pool smaller than 20) and the returned
threshold is `mean + 4·stdev = 1`, non-negative and unfloored. -/
theorem evt_calibrator_c1_witness :
    (0 : ℚ) ≤ fitEvtThreshold ⟨fun _ => none, fun _ _ _ => none⟩ (fun _ => 0)
        [some 1] (3/4) (1/20) 0 4 ∧
    fitEvtThreshold ⟨fun _ => none, fun _ _ _ => none⟩ (fun _ => 0)
        [some 1] (3/4) (1/20) 0 4 = 1 := by
  constructor
  · exact (evt_calibrator_c1 ⟨fun _ => none, fun _ _ _ => none⟩ (fun _ => 0)
      [some 1] 0 (fun x _ => le_rfl) (by
        intro v hv
        simp only [List.filterMap_cons, id, List.filterMap_nil] at hv
        simp only [List.mem_singleton] at hv
        subst hv
        norm_num)).1
  · norm_num [fitEvtThreshold, fitKsigmaThreshold, npMean, npVar,
      List.filterMap_cons, id]

/-- C5: the ratio computation is ε-guarded.  The guard `ε` is always
strictly positive (so no division by zero can occur and every `P` value is
a finite rational); whenever some `S_G` value is strictly positive, `ε`
equals `max(1e-10, 1e-6 · mean of the strictly positive S_G values)`; each
window's `P` equals `S_Z / max(S_G, ε)`, with a strictly positive
denominator; and when every `S_G` value is `0` the denominator is the
constant `ε = 1e-6`. -/
theorem eps_guarded_ratio_c5 (SZ SG : List ℚ) (hlen : SZ.length = SG.length) :
    0 < epsGuard SG ∧
    ((∃ g ∈ SG, 0 < g) →
      epsGuard SG = max (1 / 10 ^ 10)
        (((SG.filter (fun g => decide (0 < g))).sum /
          (SG.filter (fun g => decide (0 < g))).length) * (1 / 10 ^ 6))) ∧
    (∀ i, i < SZ.length →
      (computeP SZ SG).getD i 0 = SZ.getD i 0 / max (SG.getD i 0) (epsGuard SG) ∧
      0 < max (SG.getD i 0) (epsGuard SG)) ∧
    ((∀ g ∈ SG, g = 0) → epsGuard SG = 1 / 10 ^ 6) := by
  refine ⟨epsGuard_pos SG, ?_, ?_, ?_⟩
  · rintro ⟨g, hg, hgpos⟩
    have hne : (SG.filter (fun g => decide (0 < g))).length ≠ 0 := by
      have : g ∈ SG.filter (fun g => decide (0 < g)) :=
        List.mem_filter.mpr ⟨hg, by simpa using hgpos⟩
      intro h
      rw [List.length_eq_zero] at h
      simp [h] at this
    simp [epsGuard, meanPosSG, hne]
  · intro i hi
    have hi' : i < SG.length := hlen ▸ hi
    have hsafe : i < (safeSG SG).length := by simpa [safeSG] using hi'
    have hzip : i < (computeP SZ SG).length := by
      simp only [computeP, List.length_zipWith]
      omega
    constructor
    · rw [List.getD_eq_getElem _ _ hzip, List.getD_eq_getElem _ _ hi]
      have := safeSG_getD SG i hi'
      rw [List.getD_eq_getElem _ _ hsafe, List.getD_eq_getElem _ _ hi'] at this
      simp only [computeP, List.getElem_zipWith]
      rw [this, List.getD_eq_getElem _ _ hi']
    · exact lt_max_of_lt_right (epsGuard_pos SG)
  · intro hall
    have hfilt : SG.filter (fun g => decide (0 < g)) = [] := by
      apply List.filter_eq_nil_iff.mpr
      intro g hg
      simp [hall g hg]
    simp [epsGuard, meanPosSG, hfilt]
    norm_num

/-- Closed witness for `eps_guarded_ratio_c5` at a concrete night: two
windows with `S_G = [0, 0]` (all zero) and `S_Z = [3, 7]`; the guard is
`1e-6` and every ratio is a concrete finite rational. -/
theorem eps_guarded_ratio_c5_witness :
    (0 < epsGuard [0, 0] ∧
      ((∃ g ∈ ([0, 0] : List ℚ), 0 < g) →
        epsGuard [0, 0] = max (1 / 10 ^ 10)
          ((((([0, 0] : List ℚ)).filter (fun g => decide (0 < g))).sum /
            ((([0, 0] : List ℚ)).filter (fun g => decide (0 < g))).length) * (1 / 10 ^ 6))) ∧
      (∀ i, i < ([3, 7] : List ℚ).length →
        (computeP [3, 7] [0, 0]).getD i 0 =
          ([3, 7] : List ℚ).getD i 0 / max (([0, 0] : List ℚ).getD i 0) (epsGuard [0, 0]) ∧
        0 < max (([0, 0] : List ℚ).getD i 0) (epsGuard [0, 0])) ∧
      ((∀ g ∈ ([0, 0] : List ℚ), g = 0) → epsGuard [0, 0] = 1 / 10 ^ 6)) ∧
    computeP [3, 7] [0, 0] = [3000000, 7000000] := by
  constructor
  · exact eps_guarded_ratio_c5 [3, 7] [0, 0] rfl
  · norm_num [computeP, safeSG, epsGuard, meanPosSG, List.zipWith]

end PRA
